import Mathlib

/-!
Verification of the upb core streaming/dispatch layer (src/core/upb_stream_vtbl.h)
and the refcounted-object layer (src/upb/refcounted.h), by shallow embedding.

Pointers are modelled as follows: a handler-set pointer (`upb_handlerset *`) is an
identifier of type `S` (its vtable content is an extra table `vt : S -> upb_handlerset`),
a closure (`void *`) is an `Option C`, and the dispatcher's frame array is a total
function from `Int` (frame offsets from the stack base) to frames, so that pointer
arithmetic below the base or above the declared array stays representable.
Dereferencing a NULL handler-set pointer is C undefined behaviour; the embedded
operations return `Option` results and yield `none` exactly there.
-/

/-- The upb_flow_t enum from the stream interface (declared in upb_stream.h, which is
not part of src/; its four members are given by spec section 6). -/
inductive upb_flow_t where
  | UPB_CONTINUE
  | UPB_SKIPSUBMSG
  | UPB_BREAK
  | UPB_DELEGATE
deriving DecidableEq, Repr

export upb_flow_t (UPB_CONTINUE UPB_SKIPSUBMSG UPB_BREAK UPB_DELEGATE)

/-- struct _upb_handlers: a (handler-set pointer, closure pointer) pair, both nullable. -/
structure upb_handlers (S C : Type) where
  set : Option S
  closure : Option C
deriving DecidableEq, Repr

/-- upb_handlers_reset: h->set = NULL; h->closure = NULL. -/
def upb_handlers_reset (S C : Type) : upb_handlers S C := ⟨none, none⟩

/-- upb_handlers_isempty: return !h->set && !h->closure. -/
def upb_handlers_isempty {S C : Type} (h : upb_handlers S C) : Bool :=
  h.set.isNone && h.closure.isNone

/-- The names of the six callbacks of a handler set. -/
inductive CbName where
  | startmsg
  | endmsg
  | startsubmsg
  | endsubmsg
  | value
  | unknownval
deriving DecidableEq, Repr

/-- A recorded callback invocation: which handler set was called, and which callback. -/
structure Call (S : Type) where
  set : S
  cb : CbName
deriving DecidableEq, Repr

/-- The behaviour of one handler set (the function pointers behind a upb_handlerset*).
startmsg and endmsg return void and are modelled purely by their recorded invocation;
startsubmsg returns the flow value together with the final contents of its handlers
out-parameter. -/
structure upb_handlerset (S C F V : Type) where
  startsubmsg : Option C → F → upb_flow_t × upb_handlers S C
  endsubmsg : Option C → upb_flow_t
  value : Option C → F → V → upb_flow_t
  unknownval : Option C → Nat → V → upb_flow_t

/-- A dispatcher frame: (handlers, depth).  depth is a C int; we use Int. -/
structure upb_dispatcher_frame (S C : Type) where
  handlers : upb_handlers S C
  depth : Int
deriving DecidableEq, Repr

/-- The dispatcher: the frame array is modelled as a total function on Int offsets from
the stack base, with topIdx the offset of d->top.  (d->limit is set only by
upb_dispatcher_init and never read by the dispatch operations; it is modelled
separately, see upb_dispatcher_init below.) -/
structure upb_dispatcher (S C : Type) where
  stack : Int → upb_dispatcher_frame S C
  topIdx : Int

/-- Pointwise update of the frame array at one offset. -/
def updStack {S C : Type} (st : Int → upb_dispatcher_frame S C) (i : Int)
    (fr : upb_dispatcher_frame S C) : Int → upb_dispatcher_frame S C :=
  fun j => if j = i then fr else st j

theorem updStack_same {S C : Type} (st : Int → upb_dispatcher_frame S C) (i : Int)
    (fr : upb_dispatcher_frame S C) : updStack st i fr i = fr := by
  simp [updStack]

theorem updStack_ne {S C : Type} (st : Int → upb_dispatcher_frame S C) (i : Int)
    (fr : upb_dispatcher_frame S C) (j : Int) (h : j ≠ i) : updStack st i fr j = st j := by
  simp [updStack, h]

/-- upb_dispatcher_init computes d->limit = d->stack + sizeof(d->stack).
sizeof(d->stack) is UPB_MAX_NESTING * sizeof(upb_dispatcher_frame) BYTES, while adding
an integer to a upb_dispatcher_frame* advances that many FRAMES, so the resulting limit
lies maxNesting * sizeofFrame frames past the stack base.  This function returns that
offset (in frames) as a function of the two compile-time quantities. -/
def upb_dispatcher_init (maxNesting sizeofFrame : Nat) : Nat :=
  maxNesting * sizeofFrame

/-- upb_dispatcher_reset: d->top = d->stack; d->top->depth = 1; d->top->handlers = *h. -/
def upb_dispatcher_reset {S C : Type} (d : upb_dispatcher S C) (h : upb_handlers S C) :
    upb_dispatcher S C :=
  ⟨updStack d.stack 0 ⟨h, 1⟩, 0⟩

/-- upb_dispatch_startmsg: d->top->handlers.set->startmsg(d->top->handlers.closure).
none models the NULL-set dereference. -/
def upb_dispatch_startmsg {S C F V : Type} (vt : S → upb_handlerset S C F V)
    (d : upb_dispatcher S C) : Option (upb_dispatcher S C × List (Call S)) :=
  match (d.stack d.topIdx).handlers.set with
  | none => none
  | some s =>
    let _ := vt s
    some (d, [⟨s, CbName.startmsg⟩])

/-- upb_dispatch_endmsg: d->top->handlers.set->endmsg(d->top->handlers.closure). -/
def upb_dispatch_endmsg {S C F V : Type} (vt : S → upb_handlerset S C F V)
    (d : upb_dispatcher S C) : Option (upb_dispatcher S C × List (Call S)) :=
  match (d.stack d.topIdx).handlers.set with
  | none => none
  | some s =>
    let _ := vt s
    some (d, [⟨s, CbName.endmsg⟩])

/-- upb_dispatch_startsubmsg: initializes an empty handlers out-parameter, invokes the
current set's startsubmsg, and on UPB_DELEGATE pushes a frame (++d->top) holding the
delegated handlers with depth 0, invokes the delegated set's startmsg, and rewrites the
return value to UPB_CONTINUE; in all cases it then increments d->top->depth.  The
result carries the new dispatcher state, the list of callback invocations in order, and
the returned flow value. -/
def upb_dispatch_startsubmsg {S C F V : Type} (vt : S → upb_handlerset S C F V)
    (d : upb_dispatcher S C) (f : F) :
    Option (upb_dispatcher S C × List (Call S) × upb_flow_t) :=
  match (d.stack d.topIdx).handlers.set with
  | none => none
  | some s =>
    let cl := (d.stack d.topIdx).handlers.closure
    let r := (vt s).startsubmsg cl f
    if r.1 = UPB_DELEGATE then
      match r.2.set with
      | none => none
      | some s2 =>
        let d1 : upb_dispatcher S C :=
          ⟨updStack d.stack (d.topIdx + 1) ⟨r.2, 0⟩, d.topIdx + 1⟩
        let fr := d1.stack d1.topIdx
        let d2 : upb_dispatcher S C :=
          ⟨updStack d1.stack d1.topIdx ⟨fr.handlers, fr.depth + 1⟩, d1.topIdx⟩
        some (d2, [⟨s, CbName.startsubmsg⟩, ⟨s2, CbName.startmsg⟩], UPB_CONTINUE)
    else
      let fr := d.stack d.topIdx
      some (⟨updStack d.stack d.topIdx ⟨fr.handlers, fr.depth + 1⟩, d.topIdx⟩,
            [⟨s, CbName.startsubmsg⟩], r.1)

/-- The condition of the assertion in upb_dispatch_startsubmsg:
assert((ret == UPB_DELEGATE) == !upb_handlers_isempty(&handlers)),
evaluated right after the startsubmsg callback returns.  none models the NULL-set
dereference of the callback invocation itself. -/
def upb_dispatch_startsubmsg_assert {S C F V : Type} (vt : S → upb_handlerset S C F V)
    (d : upb_dispatcher S C) (f : F) : Option Bool :=
  match (d.stack d.topIdx).handlers.set with
  | none => none
  | some s =>
    let cl := (d.stack d.topIdx).handlers.closure
    let r := (vt s).startsubmsg cl f
    some (decide (r.1 = UPB_DELEGATE) == !upb_handlers_isempty r.2)

/-- upb_dispatch_endsubmsg: if (--d->top->depth == 0) invoke the top set's endmsg and
pop (--d->top); then return d->top->handlers.set->endsubmsg(d->top->handlers.closure)
on the (possibly new) top frame. -/
def upb_dispatch_endsubmsg {S C F V : Type} (vt : S → upb_handlerset S C F V)
    (d : upb_dispatcher S C) :
    Option (upb_dispatcher S C × List (Call S) × upb_flow_t) :=
  let fr := d.stack d.topIdx
  let d1 : upb_dispatcher S C :=
    ⟨updStack d.stack d.topIdx ⟨fr.handlers, fr.depth - 1⟩, d.topIdx⟩
  if fr.depth - 1 = 0 then
    match fr.handlers.set with
    | none => none
    | some s2 =>
      let d2 : upb_dispatcher S C := ⟨d1.stack, d1.topIdx - 1⟩
      match (d2.stack d2.topIdx).handlers.set with
      | none => none
      | some s1 =>
        some (d2, [⟨s2, CbName.endmsg⟩, ⟨s1, CbName.endsubmsg⟩],
              (vt s1).endsubmsg (d2.stack d2.topIdx).handlers.closure)
  else
    match fr.handlers.set with
    | none => none
    | some s =>
      some (d1, [⟨s, CbName.endsubmsg⟩], (vt s).endsubmsg fr.handlers.closure)

/-- upb_dispatch_value: return d->top->handlers.set->value(closure, f, val). -/
def upb_dispatch_value {S C F V : Type} (vt : S → upb_handlerset S C F V)
    (d : upb_dispatcher S C) (f : F) (v : V) :
    Option (upb_dispatcher S C × List (Call S) × upb_flow_t) :=
  match (d.stack d.topIdx).handlers.set with
  | none => none
  | some s =>
    some (d, [⟨s, CbName.value⟩], (vt s).value (d.stack d.topIdx).handlers.closure f v)

/-- upb_dispatch_unknownval: return d->top->handlers.set->unknownval(closure, n, val). -/
def upb_dispatch_unknownval {S C F V : Type} (vt : S → upb_handlerset S C F V)
    (d : upb_dispatcher S C) (n : Nat) (v : V) :
    Option (upb_dispatcher S C × List (Call S) × upb_flow_t) :=
  match (d.stack d.topIdx).handlers.set with
  | none => none
  | some s =>
    some (d, [⟨s, CbName.unknownval⟩],
          (vt s).unknownval (d.stack d.topIdx).handlers.closure n v)

/-- The handler contract from the spec: the startsubmsg callback returns DELEGATE if
and only if it filled the handlers out-parameter with a non-empty value. -/
def HandlerContract {S C F V : Type} (hs : upb_handlerset S C F V) : Prop :=
  ∀ (c : Option C) (f : F),
    ((hs.startsubmsg c f).1 = UPB_DELEGATE) ↔ upb_handlers_isempty (hs.startsubmsg c f).2 = false

/-- Claim C5: upb_dispatch_startsubmsg checks that the startsubmsg callback returns
DELEGATE exactly when the handlers out-parameter is non-empty (empty means both the set
and the closure are null); if the current top frame has a registered handler set whose
behaviour satisfies this contract, the assertion evaluates to true. -/
theorem dispatch_startsubmsg_assert_holds {S C F V : Type}
    (vt : S → upb_handlerset S C F V) (d : upb_dispatcher S C) (f : F) (s : S)
    (hset : (d.stack d.topIdx).handlers.set = some s)
    (hcontract : HandlerContract (vt s)) :
    upb_dispatch_startsubmsg_assert vt d f = some true := by
  unfold upb_dispatch_startsubmsg_assert
  rw [hset]
  have h := hcontract (d.stack d.topIdx).handlers.closure f
  by_cases hd : ((vt s).startsubmsg (d.stack d.topIdx).handlers.closure f).1 = UPB_DELEGATE
  · simp [hd, h.mp hd]
  · have h2 : ¬ upb_handlers_isempty ((vt s).startsubmsg (d.stack d.topIdx).handlers.closure f).2 = false := fun hc => hd (h.mpr hc)
    cases hb : upb_handlers_isempty ((vt s).startsubmsg (d.stack d.topIdx).handlers.closure f).2
    · exact absurd hb h2
    · simp [hd, hb]

/-- Concrete world used by several witnesses below: handler set 1 always answers
CONTINUE with an empty out-parameter. -/
def contWorld : Nat → upb_handlerset Nat Nat Nat Nat := fun _ =>
  { startsubmsg := fun _ _ => (UPB_CONTINUE, ⟨none, none⟩)
    endsubmsg := fun _ => UPB_CONTINUE
    value := fun _ _ _ => UPB_CONTINUE
    unknownval := fun _ _ _ => UPB_CONTINUE }

/-- A concrete dispatcher whose whole frame array holds handler set 1. -/
def contDispatcher : upb_dispatcher Nat Nat :=
  ⟨fun _ => ⟨⟨some 1, some 10⟩, 1⟩, 0⟩

theorem dispatch_startsubmsg_assert_holds_witness :
    upb_dispatch_startsubmsg_assert contWorld contDispatcher 5 = some true :=
  dispatch_startsubmsg_assert_holds contWorld contDispatcher 5 1 rfl
    (by intro c f; simp [contWorld, upb_handlers_isempty])

/-- Claim C3 (the code diverges from it): upb_dispatcher_init sets
d->limit = d->stack + sizeof(d->stack), which lands UPB_MAX_NESTING * sizeof(frame)
frames past the base instead of UPB_MAX_NESTING frames.  Evaluated at the spec's
suggested UPB_MAX_NESTING = 64 and a 24-byte frame (two 8-byte pointers plus a padded
int on an LP64 target), the limit offset is 1536 frames, not 64. -/
theorem upb_dispatcher_init_limit_mismatch :
    upb_dispatcher_init 64 24 = 1536 ∧ upb_dispatcher_init 64 24 ≠ 64 := by
  constructor
  · rfl
  · decide

/-- Claim C1: with the current (parent) handler set returning DELEGATE and a delegated
handlers value whose set is s2, upb_dispatch_startsubmsg invokes the parent set's
startsubmsg, pushes a frame holding the delegated handlers (depth 1 after the
increment), invokes the delegated set's startmsg, and returns CONTINUE; a following
value event is delivered to the delegated set; and the matching upb_dispatch_endsubmsg
invokes the delegated set's endmsg, pops back to the parent frame, and invokes the
PARENT set's endsubmsg — so the observed callback order for a delegated submessage
holding one value is parent.startsubmsg, child.startmsg, child.value, child.endmsg,
parent.endsubmsg. -/
theorem dispatch_startsubmsg_delegation_order {S C F V : Type}
    (vt : S → upb_handlerset S C F V) (d : upb_dispatcher S C) (f f2 : F) (v : V)
    (s1 s2 : S) (h2 : upb_handlers S C)
    (hset : (d.stack d.topIdx).handlers.set = some s1)
    (hsub : (vt s1).startsubmsg (d.stack d.topIdx).handlers.closure f = (UPB_DELEGATE, h2))
    (h2set : h2.set = some s2) :
    ∃ d1, upb_dispatch_startsubmsg vt d f =
        some (d1, [⟨s1, CbName.startsubmsg⟩, ⟨s2, CbName.startmsg⟩], UPB_CONTINUE) ∧
      d1.topIdx = d.topIdx + 1 ∧
      (d1.stack d1.topIdx).handlers = h2 ∧
      (d1.stack d1.topIdx).depth = 1 ∧
      upb_dispatch_value vt d1 f2 v =
        some (d1, [⟨s2, CbName.value⟩], (vt s2).value h2.closure f2 v) ∧
      ∃ d3, upb_dispatch_endsubmsg vt d1 =
          some (d3, [⟨s2, CbName.endmsg⟩, ⟨s1, CbName.endsubmsg⟩],
                (vt s1).endsubmsg (d.stack d.topIdx).handlers.closure) ∧
        d3.topIdx = d.topIdx ∧
        (d3.stack d3.topIdx).handlers = (d.stack d.topIdx).handlers := by
  have hne : d.topIdx ≠ d.topIdx + 1 := by omega
  refine ⟨⟨updStack (updStack d.stack (d.topIdx + 1) ⟨h2, 0⟩) (d.topIdx + 1)
      ⟨h2, 0 + 1⟩, d.topIdx + 1⟩, ?_, rfl, ?_, ?_, ?_, ?_⟩
  · simp [upb_dispatch_startsubmsg, hset, hsub, h2set, updStack]
  · simp [updStack]
  · simp [updStack]
  · simp [upb_dispatch_value, h2set, updStack]
  · refine ⟨⟨updStack (updStack (updStack d.stack (d.topIdx + 1) ⟨h2, 0⟩) (d.topIdx + 1)
        ⟨h2, 0 + 1⟩) (d.topIdx + 1) ⟨h2, 0 + 1 - 1⟩, d.topIdx⟩, ?_, rfl, ?_⟩
    · simp [upb_dispatch_endsubmsg, h2set, hset, updStack, hne]
    · simp [updStack, hne]

/-- The parent/child world used by the delegation witnesses: handler set 1 delegates
every submessage to handler set 2 with closure 20; every other callback answers
CONTINUE. -/
def delegWorld : Nat → upb_handlerset Nat Nat Nat Nat := fun s =>
  if s = 1 then
    { startsubmsg := fun _ _ => (UPB_DELEGATE, ⟨some 2, some 20⟩)
      endsubmsg := fun _ => UPB_CONTINUE
      value := fun _ _ _ => UPB_CONTINUE
      unknownval := fun _ _ _ => UPB_CONTINUE }
  else contWorld s

theorem dispatch_startsubmsg_delegation_order_witness :
    ∃ d1, upb_dispatch_startsubmsg delegWorld contDispatcher 7 =
        some (d1, [⟨1, CbName.startsubmsg⟩, ⟨2, CbName.startmsg⟩], UPB_CONTINUE) ∧
      d1.topIdx = contDispatcher.topIdx + 1 ∧
      (d1.stack d1.topIdx).handlers = ⟨some 2, some 20⟩ ∧
      (d1.stack d1.topIdx).depth = 1 ∧
      upb_dispatch_value delegWorld d1 8 9 =
        some (d1, [⟨2, CbName.value⟩], (delegWorld 2).value (some 20) 8 9) ∧
      ∃ d3, upb_dispatch_endsubmsg delegWorld d1 =
          some (d3, [⟨2, CbName.endmsg⟩, ⟨1, CbName.endsubmsg⟩],
                (delegWorld 1).endsubmsg
                  ((contDispatcher.stack contDispatcher.topIdx).handlers.closure)) ∧
        d3.topIdx = contDispatcher.topIdx ∧
        (d3.stack d3.topIdx).handlers =
          (contDispatcher.stack contDispatcher.topIdx).handlers :=
  dispatch_startsubmsg_delegation_order delegWorld contDispatcher 7 8 9 1 2
    ⟨some 2, some 20⟩ rfl rfl rfl

/-- Claim C4: when the startsubmsg callback answers with a non-DELEGATE flow and an
empty out-parameter, upb_dispatch_startsubmsg pushes no frame and increments the top
frame's depth, and the matching upb_dispatch_endsubmsg decrements it back and invokes
the SAME handler set's endsubmsg without popping; dispatched from a state of depth k
(k = 1 after reset), top.depth transitions k → k+1 → k. -/
theorem dispatch_startsubmsg_nondelegate_depth {S C F V : Type}
    (vt : S → upb_handlerset S C F V) (d : upb_dispatcher S C) (f : F)
    (s1 : S) (ret : upb_flow_t) (hout : upb_handlers S C)
    (hset : (d.stack d.topIdx).handlers.set = some s1)
    (hsub : (vt s1).startsubmsg (d.stack d.topIdx).handlers.closure f = (ret, hout))
    (hret : ret ≠ UPB_DELEGATE)
    (hempty : upb_handlers_isempty hout = true)
    (hdepth : 1 ≤ (d.stack d.topIdx).depth) :
    ∃ d1, upb_dispatch_startsubmsg vt d f = some (d1, [⟨s1, CbName.startsubmsg⟩], ret) ∧
      d1.topIdx = d.topIdx ∧
      (d1.stack d.topIdx).handlers = (d.stack d.topIdx).handlers ∧
      (d1.stack d.topIdx).depth = (d.stack d.topIdx).depth + 1 ∧
      ∃ d2, upb_dispatch_endsubmsg vt d1 = some (d2, [⟨s1, CbName.endsubmsg⟩],
            (vt s1).endsubmsg (d.stack d.topIdx).handlers.closure) ∧
        d2.topIdx = d.topIdx ∧
        (d2.stack d.topIdx).handlers = (d.stack d.topIdx).handlers ∧
        (d2.stack d.topIdx).depth = (d.stack d.topIdx).depth := by
  refine ⟨⟨updStack d.stack d.topIdx
      ⟨(d.stack d.topIdx).handlers, (d.stack d.topIdx).depth + 1⟩, d.topIdx⟩,
      ?_, rfl, ?_, ?_, ?_⟩
  · simp [upb_dispatch_startsubmsg, hset, hsub, hret, updStack]
  · simp [updStack]
  · simp [updStack]
  · have hnz : ¬ ((d.stack d.topIdx).depth + 1 - 1 = 0) := by omega
    refine ⟨⟨updStack (updStack d.stack d.topIdx
        ⟨(d.stack d.topIdx).handlers, (d.stack d.topIdx).depth + 1⟩) d.topIdx
        ⟨(d.stack d.topIdx).handlers, (d.stack d.topIdx).depth + 1 - 1⟩, d.topIdx⟩,
        ?_, rfl, ?_, ?_⟩
    · simp [upb_dispatch_endsubmsg, hset, updStack, hnz]
      intro h0
      exfalso
      omega
    · simp [updStack]
    · simp [updStack]

theorem dispatch_startsubmsg_nondelegate_depth_witness :
    ∃ d1, upb_dispatch_startsubmsg contWorld contDispatcher 5 =
        some (d1, [⟨1, CbName.startsubmsg⟩], UPB_CONTINUE) ∧
      d1.topIdx = contDispatcher.topIdx ∧
      (d1.stack contDispatcher.topIdx).handlers =
        (contDispatcher.stack contDispatcher.topIdx).handlers ∧
      (d1.stack contDispatcher.topIdx).depth =
        (contDispatcher.stack contDispatcher.topIdx).depth + 1 ∧
      ∃ d2, upb_dispatch_endsubmsg contWorld d1 = some (d2, [⟨1, CbName.endsubmsg⟩],
            (contWorld 1).endsubmsg
              ((contDispatcher.stack contDispatcher.topIdx).handlers.closure)) ∧
        d2.topIdx = contDispatcher.topIdx ∧
        (d2.stack contDispatcher.topIdx).handlers =
          (contDispatcher.stack contDispatcher.topIdx).handlers ∧
        (d2.stack contDispatcher.topIdx).depth =
          (contDispatcher.stack contDispatcher.topIdx).depth :=
  dispatch_startsubmsg_nondelegate_depth contWorld contDispatcher 5 1 UPB_CONTINUE
    ⟨none, none⟩ rfl rfl (by decide) rfl (by decide)

/-- A dispatch operation, as issued by a decoder driving the dispatcher. -/
inductive DispatchOp (F V : Type) where
  | startmsg
  | endmsg
  | startsubmsg (f : F)
  | endsubmsg
  | value (f : F) (v : V)
  | unknownval (n : Nat) (v : V)

/-- One dispatch operation applied to the dispatcher; the returned flow value (when
there is one) is dropped, keeping the state and the recorded callback invocations. -/
def dispatchStep {S C F V : Type} (vt : S → upb_handlerset S C F V)
    (d : upb_dispatcher S C) : DispatchOp F V → Option (upb_dispatcher S C × List (Call S))
  | .startmsg => upb_dispatch_startmsg vt d
  | .endmsg => upb_dispatch_endmsg vt d
  | .startsubmsg f => (upb_dispatch_startsubmsg vt d f).map (fun r => (r.1, r.2.1))
  | .endsubmsg => (upb_dispatch_endsubmsg vt d).map (fun r => (r.1, r.2.1))
  | .value f v => (upb_dispatch_value vt d f v).map (fun r => (r.1, r.2.1))
  | .unknownval n v => (upb_dispatch_unknownval vt d n v).map (fun r => (r.1, r.2.1))

/-- Run a sequence of dispatch operations, accumulating the callback trace. -/
def runOps {S C F V : Type} (vt : S → upb_handlerset S C F V) :
    upb_dispatcher S C → List (DispatchOp F V) → Option (upb_dispatcher S C × List (Call S))
  | d, [] => some (d, [])
  | d, op :: rest =>
    match dispatchStep vt d op with
    | none => none
    | some (d1, tr) =>
      match runOps vt d1 rest with
      | none => none
      | some (d2, tr2) => some (d2, tr ++ tr2)

/-- Nesting contribution of one operation: +1 for start-submsg, -1 for end-submsg. -/
def opDelta {F V : Type} : DispatchOp F V → Int
  | .startsubmsg _ => 1
  | .endsubmsg => -1
  | _ => 0

/-- Net nesting of a sequence of operations. -/
def opNet {F V : Type} : List (DispatchOp F V) → Int
  | [] => 0
  | op :: rest => opDelta op + opNet rest

/-- Sum f 0 + ... + f m. -/
def sumDepths (f : Nat → Int) : Nat → Int
  | 0 => f 0
  | m + 1 => sumDepths f m + f (m + 1)

theorem sumDepths_congr (f g : Nat → Int) :
    ∀ m : Nat, (∀ k, k ≤ m → f k = g k) → sumDepths f m = sumDepths g m
  | 0, h => by simp [sumDepths, h 0 le_rfl]
  | m + 1, h => by
    have h1 := sumDepths_congr f g m (fun k hk => h k (Nat.le_succ_of_le hk))
    simp [sumDepths, h1, h (m + 1) le_rfl]

theorem sumDepths_update_top (f g : Nat → Int) (m : Nat)
    (hpre : ∀ k, k < m → f k = g k) :
    sumDepths f m = sumDepths g m - g m + f m := by
  cases m with
  | zero =>
    simp only [sumDepths]
    ring
  | succ m =>
    have h1 : sumDepths f m = sumDepths g m :=
      sumDepths_congr f g m (fun k hk => hpre k (Nat.lt_succ_of_le hk))
    simp only [sumDepths, h1]
    ring

theorem sumDepths_lower (f : Nat → Int) :
    ∀ m : Nat, (∀ k, k ≤ m → 1 ≤ f k) → (m : Int) + f m ≤ sumDepths f m
  | 0, h => by simp [sumDepths]
  | m + 1, h => by
    have h1 := sumDepths_lower f m (fun k hk => h k (Nat.le_succ_of_le hk))
    have h2 := h m (Nat.le_succ m)
    simp only [sumDepths]
    push_cast
    omega

/-- The frame-pointer invariant maintained by well-formed dispatch sequences: the top
offset is a natural number m, all live frames hold a registered handler set and a depth
of at least 1, the live depths sum to n+1 where n is the current submessage nesting,
and m is bounded by n. -/
def DispInv {S C : Type} (d : upb_dispatcher S C) (n : Int) : Prop :=
  ∃ m : Nat, d.topIdx = (m : Int) ∧
    (∀ k : Nat, k ≤ m →
      ((d.stack (k : Int)).handlers.set.isSome ∧ 1 ≤ (d.stack (k : Int)).depth)) ∧
    sumDepths (fun k => (d.stack (k : Int)).depth) m = n + 1 ∧
    (m : Int) ≤ n

/-- The part of the handler contract the dispatcher relies on for delegation: a
callback that answers DELEGATE has filled in an actual handler set. -/
def DelegationValid {S C F V : Type} (vt : S → upb_handlerset S C F V) : Prop :=
  ∀ (s : S) (c : Option C) (f : F),
    ((vt s).startsubmsg c f).1 = UPB_DELEGATE → (((vt s).startsubmsg c f).2).set.isSome


theorem sumDepths_succ (f : Nat → Int) (m : Nat) :
    sumDepths f (m + 1) = sumDepths f m + f (m + 1) := rfl

theorem dispatchStep_inv {S C F V : Type} (vt : S → upb_handlerset S C F V)
    (hvt : DelegationValid vt) (d : upb_dispatcher S C) (n : Int) (op : DispatchOp F V)
    (hinv : DispInv d n) (hbal : 0 ≤ n + opDelta op) :
    ∃ d1 tr, dispatchStep vt d op = some (d1, tr) ∧ DispInv d1 (n + opDelta op) := by
  obtain ⟨st, ti⟩ := d
  unfold DispInv at hinv
  obtain ⟨m, hm, hfr, hsum, hmn⟩ := hinv
  dsimp only at hm hfr hsum
  subst hm
  obtain ⟨hs, hd1⟩ := hfr m le_rfl
  obtain ⟨s, hset⟩ := Option.isSome_iff_exists.mp hs
  cases op with
  | startmsg =>
    refine ⟨⟨st, (m : Int)⟩, [⟨s, CbName.startmsg⟩], ?_, ?_⟩
    · simp [dispatchStep, upb_dispatch_startmsg, hset]
    · have h : DispInv ⟨st, (m : Int)⟩ n := ⟨m, rfl, hfr, hsum, hmn⟩
      simpa [opDelta] using h
  | endmsg =>
    refine ⟨⟨st, (m : Int)⟩, [⟨s, CbName.endmsg⟩], ?_, ?_⟩
    · simp [dispatchStep, upb_dispatch_endmsg, hset]
    · have h : DispInv ⟨st, (m : Int)⟩ n := ⟨m, rfl, hfr, hsum, hmn⟩
      simpa [opDelta] using h
  | value f v =>
    refine ⟨⟨st, (m : Int)⟩, [⟨s, CbName.value⟩], ?_, ?_⟩
    · simp [dispatchStep, upb_dispatch_value, hset]
    · have h : DispInv ⟨st, (m : Int)⟩ n := ⟨m, rfl, hfr, hsum, hmn⟩
      simpa [opDelta] using h
  | unknownval nn v =>
    refine ⟨⟨st, (m : Int)⟩, [⟨s, CbName.unknownval⟩], ?_, ?_⟩
    · simp [dispatchStep, upb_dispatch_unknownval, hset]
    · have h : DispInv ⟨st, (m : Int)⟩ n := ⟨m, rfl, hfr, hsum, hmn⟩
      simpa [opDelta] using h
  | startsubmsg f =>
    by_cases hdel : ((vt s).startsubmsg (st (m : Int)).handlers.closure f).1 = UPB_DELEGATE
    · have hs2 : (((vt s).startsubmsg (st (m : Int)).handlers.closure f).2).set.isSome :=
        hvt s _ f hdel
      obtain ⟨s2, hset2⟩ := Option.isSome_iff_exists.mp hs2
      refine ⟨⟨updStack (updStack st ((m : Int) + 1)
          ⟨((vt s).startsubmsg (st (m : Int)).handlers.closure f).2, 0⟩) ((m : Int) + 1)
          ⟨((vt s).startsubmsg (st (m : Int)).handlers.closure f).2, 0 + 1⟩, (m : Int) + 1⟩,
          [⟨s, CbName.startsubmsg⟩, ⟨s2, CbName.startmsg⟩], ?_, ?_⟩
      · simp [dispatchStep, upb_dispatch_startsubmsg, hset, hdel, hset2, updStack_same]
      · unfold DispInv
        have heq : ((m + 1 : Nat) : Int) = (m : Int) + 1 := by omega
        refine ⟨m + 1, by dsimp only; omega, ?_, ?_, ?_⟩
        · intro k hk
          dsimp only
          rcases Nat.lt_or_ge k (m + 1) with hlt | hge
          · have hkm : k ≤ m := Nat.lt_succ_iff.mp hlt
            have hne : (k : Int) ≠ (m : Int) + 1 := by omega
            rw [updStack_ne _ _ _ _ hne, updStack_ne _ _ _ _ hne]
            exact hfr k hkm
          · have hk1 : k = m + 1 := le_antisymm hk hge
            subst hk1
            rw [heq, updStack_same]
            exact ⟨by simp [hset2], by norm_num⟩
        · dsimp only
          have hpre : sumDepths (fun k => ((updStack (updStack st ((m : Int) + 1)
              ⟨((vt s).startsubmsg (st (m : Int)).handlers.closure f).2, 0⟩) ((m : Int) + 1)
              ⟨((vt s).startsubmsg (st (m : Int)).handlers.closure f).2, 0 + 1⟩)
              (k : Int)).depth) m = sumDepths (fun k => (st (k : Int)).depth) m := by
            apply sumDepths_congr
            intro k hk
            have hne : (k : Int) ≠ (m : Int) + 1 := by omega
            rw [updStack_ne _ _ _ _ hne, updStack_ne _ _ _ _ hne]
          simp only [sumDepths_succ, hpre, heq, updStack_same, opDelta]
          all_goals omega
        · dsimp only
          simp only [opDelta]
          omega
    · refine ⟨⟨updStack st (m : Int) ⟨(st (m : Int)).handlers, (st (m : Int)).depth + 1⟩,
          (m : Int)⟩, [⟨s, CbName.startsubmsg⟩], ?_, ?_⟩
      · simp [dispatchStep, upb_dispatch_startsubmsg, hset, hdel]
      · unfold DispInv
        refine ⟨m, rfl, ?_, ?_, ?_⟩
        · intro k hk
          dsimp only
          rcases Nat.lt_or_ge k m with hlt | hge
          · have hne : (k : Int) ≠ (m : Int) := by omega
            rw [updStack_ne _ _ _ _ hne]
            exact hfr k (Nat.le_of_lt hlt)
          · have hk1 : k = m := le_antisymm hk hge
            subst hk1
            rw [updStack_same]
            exact ⟨by simpa using hs, by dsimp only; omega⟩
        · dsimp only
          have hupd := sumDepths_update_top
            (fun k => ((updStack st (m : Int)
              ⟨(st (m : Int)).handlers, (st (m : Int)).depth + 1⟩) (k : Int)).depth)
            (fun k => (st (k : Int)).depth) m
            (by
              intro k hk
              have hne : (k : Int) ≠ (m : Int) := by omega
              dsimp only
              rw [updStack_ne _ _ _ _ hne])
          rw [hupd]
          simp only [updStack_same, opDelta]
          all_goals omega
        · simp only [opDelta]
          omega
  | endsubmsg =>
    have hbal1 : 1 ≤ n := by simp only [opDelta] at hbal; omega
    by_cases hc : (st (m : Int)).depth - 1 = 0
    · -- the top frame's depth reaches 0: endmsg fires and the frame is popped
      have hdep1 : (st (m : Int)).depth = 1 := by omega
      have hm0 : m ≠ 0 := by
        intro h0
        subst h0
        have h0s : sumDepths (fun k => (st (k : Int)).depth) 0
            = (st ((0 : Nat) : Int)).depth := rfl
        rw [h0s, Nat.cast_zero] at hsum
        rw [Nat.cast_zero] at hdep1
        omega
      obtain ⟨m', hmm'⟩ := Nat.exists_eq_succ_of_ne_zero hm0
      have hm'le : m' ≤ m := by omega
      obtain ⟨hs', hd1'⟩ := hfr m' hm'le
      obtain ⟨s1, hset1⟩ := Option.isSome_iff_exists.mp hs'
      have hne' : (m' : Int) ≠ (m : Int) := by omega
      have hidx : (m : Int) - 1 = (m' : Int) := by omega
      refine ⟨⟨updStack st (m : Int)
          ⟨(st (m : Int)).handlers, (st (m : Int)).depth - 1⟩, (m : Int) - 1⟩,
          [⟨s, CbName.endmsg⟩, ⟨s1, CbName.endsubmsg⟩], ?_, ?_⟩
      · simp [dispatchStep, upb_dispatch_endsubmsg, hc, hset, hidx,
          updStack_ne _ _ _ _ hne', hset1]
      · unfold DispInv
        refine ⟨m', by dsimp only; omega, ?_, ?_, ?_⟩
        · intro k hk
          dsimp only
          have hne : (k : Int) ≠ (m : Int) := by omega
          rw [updStack_ne _ _ _ _ hne]
          exact hfr k (by omega)
        · dsimp only
          have hpre : sumDepths (fun k => ((updStack st (m : Int)
              ⟨(st (m : Int)).handlers, (st (m : Int)).depth - 1⟩) (k : Int)).depth) m'
              = sumDepths (fun k => (st (k : Int)).depth) m' := by
            apply sumDepths_congr
            intro k hk
            have hne : (k : Int) ≠ (m : Int) := by omega
            rw [updStack_ne _ _ _ _ hne]
          rw [hpre]
          rw [hmm'] at hsum
          rw [sumDepths_succ] at hsum
          have hfm : (st ((m' + 1 : Nat) : Int)).depth = (st (m : Int)).depth := by
            rw [hmm']
          rw [hfm] at hsum
          simp only [opDelta]
          omega
        · simp only [opDelta]
          omega
    · -- the top frame's depth stays positive: no pop, same set's endsubmsg runs
      refine ⟨⟨updStack st (m : Int) ⟨(st (m : Int)).handlers, (st (m : Int)).depth - 1⟩,
          (m : Int)⟩, [⟨s, CbName.endsubmsg⟩], ?_, ?_⟩
      · simp [dispatchStep, upb_dispatch_endsubmsg, hc, hset, updStack_same]
      · unfold DispInv
        refine ⟨m, rfl, ?_, ?_, ?_⟩
        · intro k hk
          dsimp only
          rcases Nat.lt_or_ge k m with hlt | hge
          · have hne : (k : Int) ≠ (m : Int) := by omega
            rw [updStack_ne _ _ _ _ hne]
            exact hfr k (Nat.le_of_lt hlt)
          · have hk1 : k = m := le_antisymm hk hge
            subst hk1
            rw [updStack_same]
            exact ⟨by simpa using hs, by dsimp only; omega⟩
        · dsimp only
          have hupd := sumDepths_update_top
            (fun k => ((updStack st (m : Int)
              ⟨(st (m : Int)).handlers, (st (m : Int)).depth - 1⟩) (k : Int)).depth)
            (fun k => (st (k : Int)).depth) m
            (by
              intro k hk
              have hne : (k : Int) ≠ (m : Int) := by omega
              dsimp only
              rw [updStack_ne _ _ _ _ hne])
          rw [hupd]
          simp only [updStack_same, opDelta]
          all_goals omega
        · have hlow := sumDepths_lower (fun k => (st (k : Int)).depth) m
            (fun k hk => (hfr k hk).2)
          dsimp only at hlow
          simp only [opDelta]
          omega

theorem runOps_inv {S C F V : Type} (vt : S → upb_handlerset S C F V)
    (hvt : DelegationValid vt) :
    ∀ (ops : List (DispatchOp F V)) (d : upb_dispatcher S C) (n : Int),
      DispInv d n →
      (∀ p q, ops = p ++ q → 0 ≤ n + opNet p) →
      ∃ d' tr, runOps vt d ops = some (d', tr) ∧ DispInv d' (n + opNet ops) := by
  intro ops
  induction ops with
  | nil =>
    intro d n hinv hbal
    exact ⟨d, [], rfl, by simpa [opNet] using hinv⟩
  | cons op rest ih =>
    intro d n hinv hbal
    have hbal1 : 0 ≤ n + opDelta op := by
      have h := hbal [op] rest rfl
      simpa [opNet] using h
    obtain ⟨d1, tr1, hstep, hinv1⟩ := dispatchStep_inv vt hvt d n op hinv hbal1
    have hbal2 : ∀ p q, rest = p ++ q → 0 ≤ (n + opDelta op) + opNet p := by
      intro p q hpq
      have h := hbal (op :: p) q (by simp [hpq])
      simp only [opNet] at h
      omega
    obtain ⟨d2, tr2, hrun, hinv2⟩ := ih d1 (n + opDelta op) hinv1 hbal2
    refine ⟨d2, tr1 ++ tr2, ?_, ?_⟩
    · simp [runOps, hstep, hrun]
    · obtain ⟨m, hm, hfr, hsum, hmn⟩ := hinv2
      refine ⟨m, hm, hfr, ?_, ?_⟩
      · rw [hsum]
        simp only [opNet]
        ring
      · simp only [opNet]
        omega

/-- Claim C2, amended: the claim's invariant does not hold for EVERY operation
sequence (see dispatcher_underflow_counterexample); it holds for every sequence issued
after a reset with a registered handler set, against handlers that supply an actual
handler set when delegating, in which every prefix has at least as many start-submsg
events as end-submsg events and keeps the submessage nesting below the stack capacity:
then at every step the frame offset d->top - d->stack stays within [0, capacity),
and in particular an end-submsg matching an outermost start-submsg never pops the
dispatcher past the base frame. -/
theorem dispatcher_frame_invariant_balanced {S C F V : Type}
    (vt : S → upb_handlerset S C F V) (hvt : DelegationValid vt)
    (d0 : upb_dispatcher S C) (h : upb_handlers S C) (hh : h.set.isSome = true)
    (N : Int) (ops : List (DispatchOp F V))
    (hbal : ∀ p q, ops = p ++ q → 0 ≤ opNet p ∧ opNet p ≤ N - 1) :
    ∀ p q, ops = p ++ q →
      ∃ d' tr, runOps vt (upb_dispatcher_reset d0 h) p = some (d', tr) ∧
        0 ≤ d'.topIdx ∧ d'.topIdx < N := by
  intro p q hpq
  have hinv0 : DispInv (upb_dispatcher_reset d0 h) 0 := by
    unfold DispInv upb_dispatcher_reset
    refine ⟨0, rfl, ?_, ?_, by norm_num⟩
    · intro k hk
      have hk0 : k = 0 := Nat.le_zero.mp hk
      subst hk0
      dsimp only
      rw [Nat.cast_zero, updStack_same]
      exact ⟨hh, by norm_num⟩
    · dsimp only
      have h0 : sumDepths (fun k => ((updStack d0.stack 0 ⟨h, 1⟩) ((k : Nat) : Int)).depth) 0
          = ((updStack d0.stack 0 ⟨h, 1⟩) ((0 : Nat) : Int)).depth := rfl
      rw [h0, Nat.cast_zero, updStack_same]
      norm_num
  have hbalp : ∀ a b, p = a ++ b → 0 ≤ (0 : Int) + opNet a := by
    intro a b hab
    have hsplit : ops = a ++ (b ++ q) := by rw [hpq, hab, List.append_assoc]
    have h2 := (hbal a (b ++ q) hsplit).1
    omega
  obtain ⟨d', tr, hrun, hinv⟩ :=
    runOps_inv vt hvt p (upb_dispatcher_reset d0 h) 0 hinv0 hbalp
  obtain ⟨m, hm, hfr, hsum, hmn⟩ := hinv
  have hup : opNet p ≤ N - 1 := (hbal p q hpq).2
  refine ⟨d', tr, hrun, ?_, ?_⟩
  · rw [hm]
    omega
  · rw [hm]
    omega

/-- Claim C2 as stated (for EVERY operation sequence) is false on the code: right
after a reset (base depth 1), a single end-submsg event decrements the base frame's
depth to 0, fires its endmsg, and pops d->top one frame BELOW the stack base — the
frame offset becomes -1, violating stack ≤ top. -/
theorem dispatcher_underflow_counterexample :
    (runOps contWorld (upb_dispatcher_reset contDispatcher ⟨some 1, some 10⟩)
        ([DispatchOp.endsubmsg] : List (DispatchOp Nat Nat))).map
      (fun r => r.1.topIdx) = some (-1) ∧ ¬ (0 : Int) ≤ -1 := by
  constructor
  · decide
  · decide

theorem dispatcher_frame_invariant_balanced_witness :
    ∃ d' tr, runOps contWorld (upb_dispatcher_reset contDispatcher ⟨some 1, some 10⟩)
        ([DispatchOp.startsubmsg 5, DispatchOp.endsubmsg] : List (DispatchOp Nat Nat))
        = some (d', tr) ∧ 0 ≤ d'.topIdx ∧ d'.topIdx < 64 := by
  have hvt : DelegationValid contWorld := by
    intro s c f hdel
    simp [contWorld] at hdel
  have hbal : ∀ p q,
      ([DispatchOp.startsubmsg 5, DispatchOp.endsubmsg] : List (DispatchOp Nat Nat))
        = p ++ q → 0 ≤ opNet p ∧ opNet p ≤ 64 - 1 := by
    intro p q hpq
    rcases p with _ | ⟨x, p⟩
    · simp [opNet]
    · rcases p with _ | ⟨y, p⟩
      · simp only [List.cons_append, List.nil_append, List.cons.injEq] at hpq
        obtain ⟨rfl, -⟩ := hpq
        simp [opNet, opDelta]
      · simp only [List.cons_append, List.cons.injEq] at hpq
        obtain ⟨rfl, rfl, h3⟩ := hpq
        have h4 : p ++ q = [] := h3.symm
        have h5 : p = [] := (List.append_eq_nil.mp h4).1
        subst h5
        simp [opNet, opDelta]
  exact dispatcher_frame_invariant_balanced contWorld hvt contDispatcher ⟨some 1, some 10⟩
    rfl 64 [DispatchOp.startsubmsg 5, DispatchOp.endsubmsg] hbal
    [DispatchOp.startsubmsg 5, DispatchOp.endsubmsg] [] (by simp)

/-- Result of a byte-source virtual call (getstr or read): err models a false or
negative return (spec section 6: callers must not interpret the magnitude of the
negative sentinel), ok carries the bytes delivered and the successor source state. -/
inductive SrcRes (σ : Type) where
  | err (s : σ)
  | ok (bs : List Nat) (s : σ)
deriving DecidableEq, Repr

/-- A byte source: the vtable entries read and getstr as state-transition functions,
plus the eof flag and the status slot read off the state. -/
structure upb_bytesrc (σ τ : Type) where
  getstr : σ → Nat → SrcRes σ
  read : σ → Nat → SrcRes σ
  eof : σ → Bool
  status : σ → τ

/-- Modelled from the spec: UPB_STRLEN_MAX (declared in the headers that are not part
of src/) is the maximal value of the 32-bit upb_strlen_t, used by getfullstr to
request a maximal getstr. -/
def UPB_STRLEN_MAX : Nat := 2 ^ 31 - 1

/-- One virtual call made by getfullstr, with its success flag. -/
inductive SrcCall where
  | getstrC (ok : Bool)
  | readC (ok : Bool)
deriving DecidableEq, Repr

def srcCallFailed : SrcCall → Bool
  | .getstrC ok => !ok
  | .readC ok => !ok

/-- The while loop of upb_bytesrc_getfullstr: while (!eof) grow the string by 4096
bytes, read into the tail, and resize to len+read — which amounts to appending the
bytes the read delivered; a negative read copies the source's status and returns
false.  fuel bounds the number of iterations the embedding may unfold; none means the
loop has not terminated within fuel iterations. -/
def getfullstr_loop {σ τ : Type} (m : upb_bytesrc σ τ) :
    Nat → List Nat → σ → List SrcCall →
    Option ((Except (τ × σ) (List Nat × σ)) × List SrcCall)
  | 0, _, _, _ => none
  | fuel + 1, str, s, tr =>
    if m.eof s then some (Except.ok (str, s), tr)
    else
      match m.read s 4096 with
      | .err s1 => some (Except.error (m.status s1, s1), tr ++ [SrcCall.readC false])
      | .ok bs s1 => getfullstr_loop m fuel (str ++ bs) s1 (tr ++ [SrcCall.readC true])

/-- upb_bytesrc_getfullstr: one maximal getstr first (so an aliasing source can hand
its buffer back without copying); if it fails, copy the source's status and return
false; otherwise run the read loop until eof.  The embedding additionally records the
trace of virtual calls made, and returns the error status / final string together with
the final source state. -/
def upb_bytesrc_getfullstr {σ τ : Type} (m : upb_bytesrc σ τ) (fuel : Nat) (s : σ) :
    Option ((Except (τ × σ) (List Nat × σ)) × List SrcCall) :=
  match m.getstr s UPB_STRLEN_MAX with
  | .err s1 => some (Except.error (m.status s1, s1), [SrcCall.getstrC false])
  | .ok bs s1 => getfullstr_loop m fuel bs s1 [SrcCall.getstrC true]

theorem getfullstr_loop_ok {σ τ : Type} (m : upb_bytesrc σ τ) (remaining : σ → List Nat)
    (Hread : ∀ s bs s1, m.read s 4096 = SrcRes.ok bs s1 → remaining s = bs ++ remaining s1)
    (Heof : ∀ s, m.eof s = true → remaining s = []) :
    ∀ fuel str s tr out sf tr1,
      getfullstr_loop m fuel str s tr = some (Except.ok (out, sf), tr1) →
      out = str ++ remaining s ∧
      ∃ ext, tr1 = tr ++ ext ∧ ∀ c ∈ ext, c = SrcCall.readC true := by
  intro fuel
  induction fuel with
  | zero =>
    intro str s tr out sf tr1 hrun
    simp [getfullstr_loop] at hrun
  | succ fuel ih =>
    intro str s tr out sf tr1 hrun
    simp only [getfullstr_loop] at hrun
    by_cases he : m.eof s = true
    · rw [if_pos he] at hrun
      simp only [Option.some.injEq, Prod.mk.injEq, Except.ok.injEq] at hrun
      obtain ⟨⟨hout, hsf⟩, htr⟩ := hrun
      subst hout
      subst htr
      refine ⟨?_, [], by simp, by simp⟩
      rw [Heof s he]
      simp
    · rw [if_neg he] at hrun
      cases hr : m.read s 4096 with
      | err s1 =>
        rw [hr] at hrun
        simp at hrun
      | ok bs s1 =>
        rw [hr] at hrun
        obtain ⟨hout, ext, hext, hcalls⟩ := ih (str ++ bs) s1 (tr ++ [SrcCall.readC true])
          out sf tr1 hrun
        refine ⟨?_, SrcCall.readC true :: ext, ?_, ?_⟩
        · rw [hout, Hread s bs s1 hr, List.append_assoc]
        · rw [hext, List.append_assoc]
          rfl
        · intro c hc
          rcases List.mem_cons.mp hc with h1 | h2
          · exact h1
          · exact hcalls c h2

theorem getfullstr_loop_spec {σ τ : Type} (m : upb_bytesrc σ τ) :
    ∀ fuel str s tr r tr1, getfullstr_loop m fuel str s tr = some (r, tr1) →
      ∃ ext, tr1 = tr ++ ext ∧
        ((∃ st sf, r = Except.error (st, sf)) ↔ ∃ c ∈ ext, srcCallFailed c = true) ∧
        (∀ st sf, r = Except.error (st, sf) → st = m.status sf) := by
  intro fuel
  induction fuel with
  | zero =>
    intro str s tr r tr1 hrun
    simp [getfullstr_loop] at hrun
  | succ fuel ih =>
    intro str s tr r tr1 hrun
    simp only [getfullstr_loop] at hrun
    by_cases he : m.eof s = true
    · rw [if_pos he] at hrun
      simp only [Option.some.injEq, Prod.mk.injEq] at hrun
      obtain ⟨hr, htr⟩ := hrun
      subst htr
      refine ⟨[], by simp, ?_, ?_⟩
      · simp only [List.not_mem_nil]
        constructor
        · rintro ⟨st, sf, hst⟩
          rw [hst] at hr
          exact absurd hr.symm (by simp)
        · rintro ⟨c, hc, -⟩
          exact absurd hc (by simp)
      · intro st sf hst
        rw [hst] at hr
        exact absurd hr.symm (by simp)
    · rw [if_neg he] at hrun
      cases hread : m.read s 4096 with
      | err s1 =>
        rw [hread] at hrun
        simp only [Option.some.injEq, Prod.mk.injEq] at hrun
        obtain ⟨hr, htr⟩ := hrun
        subst htr
        refine ⟨[SrcCall.readC false], rfl, ?_, ?_⟩
        · constructor
          · intro _
            exact ⟨SrcCall.readC false, by simp, rfl⟩
          · intro _
            exact ⟨m.status s1, s1, hr.symm⟩
        · intro st sf hst
          rw [hst] at hr
          have hr2 := hr.symm
          simp only [Except.error.injEq, Prod.mk.injEq] at hr2
          rw [hr2.1, hr2.2]
      | ok bs s1 =>
        rw [hread] at hrun
        obtain ⟨ext, hext, hiff, hstat⟩ := ih (str ++ bs) s1 (tr ++ [SrcCall.readC true])
          r tr1 hrun
        refine ⟨SrcCall.readC true :: ext, ?_, ?_, hstat⟩
        · rw [hext, List.append_assoc]
          rfl
        · rw [hiff]
          constructor
          · rintro ⟨c, hc, hf⟩
            exact ⟨c, List.mem_cons_of_mem _ hc, hf⟩
          · rintro ⟨c, hc, hf⟩
            rcases List.mem_cons.mp hc with h1 | h2
            · subst h1
              simp [srcCallFailed] at hf
            · exact ⟨c, h2, hf⟩

/-- Claim C6: when upb_bytesrc_getfullstr returns true, the returned string is exactly
the remaining content of the byte source (so its length equals the total bytes the
source produces), and the call trace is one initial getstr followed only by reads —
getfullstr issues exactly one getstr call, before any read call.  The function
remaining assigns each source state its stream content; the three hypotheses say the
source's getstr and read deliver prefixes of that content and that eof means the
content is exhausted. -/
theorem getfullstr_reads_entire_stream {σ τ : Type} (m : upb_bytesrc σ τ)
    (remaining : σ → List Nat)
    (Hget : ∀ s bs s1, m.getstr s UPB_STRLEN_MAX = SrcRes.ok bs s1 →
      remaining s = bs ++ remaining s1)
    (Hread : ∀ s bs s1, m.read s 4096 = SrcRes.ok bs s1 → remaining s = bs ++ remaining s1)
    (Heof : ∀ s, m.eof s = true → remaining s = [])
    (fuel : Nat) (s : σ) (out : List Nat) (sf : σ) (tr : List SrcCall)
    (hrun : upb_bytesrc_getfullstr m fuel s = some (Except.ok (out, sf), tr)) :
    out = remaining s ∧ out.length = (remaining s).length ∧
    ∃ rest, tr = SrcCall.getstrC true :: rest ∧ ∀ c ∈ rest, c = SrcCall.readC true := by
  unfold upb_bytesrc_getfullstr at hrun
  cases hg : m.getstr s UPB_STRLEN_MAX with
  | err s1 =>
    rw [hg] at hrun
    simp at hrun
  | ok bs s1 =>
    rw [hg] at hrun
    obtain ⟨hout, ext, hext, hcalls⟩ :=
      getfullstr_loop_ok m remaining Hread Heof fuel bs s1 [SrcCall.getstrC true]
        out sf tr hrun
    have hfull : out = remaining s := by
      rw [hout, Hget s bs s1 hg]
    refine ⟨hfull, by rw [hfull], ext, by simpa using hext, hcalls⟩

/-- A two-state aliasing byte source over states Bool: in state false, one maximal
getstr hands back the whole 3-byte buffer (aliased, no copy) and moves to state true
with eof set; reads deliver nothing. -/
def aliasSrc : upb_bytesrc Bool Nat :=
  { getstr := fun s _ => if s then SrcRes.ok [] true else SrcRes.ok [1, 2, 3] true
    read := fun s _ => SrcRes.ok [] s
    eof := fun s => s
    status := fun _ => 0 }

/-- The stream content of each aliasSrc state. -/
def aliasRemaining : Bool → List Nat := fun s => if s then [] else [1, 2, 3]

theorem getfullstr_reads_entire_stream_witness :
    upb_bytesrc_getfullstr aliasSrc 1 false
        = some (Except.ok ([1, 2, 3], true), [SrcCall.getstrC true]) ∧
    (([1, 2, 3] : List Nat) = aliasRemaining false ∧
      ([1, 2, 3] : List Nat).length = (aliasRemaining false).length ∧
      ∃ rest, ([SrcCall.getstrC true] : List SrcCall) = SrcCall.getstrC true :: rest ∧
        ∀ c ∈ rest, c = SrcCall.readC true) := by
  constructor
  · rfl
  · refine getfullstr_reads_entire_stream aliasSrc aliasRemaining ?_ ?_ ?_ 1 false
      [1, 2, 3] true [SrcCall.getstrC true] rfl
    · intro s bs s1 hg
      cases s <;> simp [aliasSrc] at hg <;> obtain ⟨rfl, rfl⟩ := hg <;> simp [aliasRemaining]
    · intro s bs s1 hr
      simp [aliasSrc] at hr
      obtain ⟨rfl, rfl⟩ := hr
      simp
    · intro s he
      simp [aliasSrc] at he
      simp [he, aliasRemaining]

/-- Claim C7: upb_bytesrc_getfullstr returns false exactly when the initial getstr
fails or some subsequent read returns the negative sentinel (exactly when the call
trace contains a failed call), and on failure the status it hands back is a copy of
the byte source's own status at the failing state. -/
theorem getfullstr_error_propagation {σ τ : Type} (m : upb_bytesrc σ τ)
    (fuel : Nat) (s : σ) (r : Except (τ × σ) (List Nat × σ)) (tr : List SrcCall)
    (hrun : upb_bytesrc_getfullstr m fuel s = some (r, tr)) :
    ((∃ st sf, r = Except.error (st, sf)) ↔ ∃ c ∈ tr, srcCallFailed c = true) ∧
    (∀ st sf, r = Except.error (st, sf) → st = m.status sf) := by
  unfold upb_bytesrc_getfullstr at hrun
  cases hg : m.getstr s UPB_STRLEN_MAX with
  | err s1 =>
    rw [hg] at hrun
    simp only [Option.some.injEq, Prod.mk.injEq] at hrun
    obtain ⟨hr, htr⟩ := hrun
    subst htr
    constructor
    · constructor
      · intro _
        exact ⟨SrcCall.getstrC false, by simp, rfl⟩
      · intro _
        exact ⟨m.status s1, s1, hr.symm⟩
    · intro st sf hst
      rw [hst] at hr
      have hr2 := hr.symm
      simp only [Except.error.injEq, Prod.mk.injEq] at hr2
      rw [hr2.1, hr2.2]
  | ok bs s1 =>
    rw [hg] at hrun
    obtain ⟨ext, hext, hiff, hstat⟩ :=
      getfullstr_loop_spec m fuel bs s1 [SrcCall.getstrC true] r tr hrun
    subst hext
    refine ⟨?_, hstat⟩
    rw [hiff]
    constructor
    · rintro ⟨c, hc, hf⟩
      exact ⟨c, by simpa using Or.inr hc, hf⟩
    · rintro ⟨c, hc, hf⟩
      rcases List.mem_cons.mp (by simpa using hc) with h1 | h2
      · subst h1
        simp [srcCallFailed] at hf
      · exact ⟨c, h2, hf⟩

/-- A byte source whose getstr immediately fails, with status 7. -/
def errSrc : upb_bytesrc Unit Nat :=
  { getstr := fun _ _ => SrcRes.err ()
    read := fun s _ => SrcRes.ok [] s
    eof := fun _ => false
    status := fun _ => 7 }

theorem getfullstr_error_propagation_witness :
    upb_bytesrc_getfullstr errSrc 0 ()
        = some (Except.error (7, ()), [SrcCall.getstrC false]) ∧
    (((∃ st sf, (Except.error ((7 : Nat), ()) : Except (Nat × Unit) (List Nat × Unit))
          = Except.error (st, sf)) ↔
        ∃ c ∈ [SrcCall.getstrC false], srcCallFailed c = true) ∧
      (∀ st sf, (Except.error ((7 : Nat), ()) : Except (Nat × Unit) (List Nat × Unit))
          = Except.error (st, sf) → st = errSrc.status sf)) :=
  ⟨rfl, getfullstr_error_propagation errSrc 0 () (Except.error (7, ()))
    [SrcCall.getstrC false] rfl⟩

/-- A byte source permitted by the byte-source contract of spec section 4.1: getstr
succeeds delivering nothing, read always returns 0 bytes (no progress), and eof is
never set. -/
def zeroSrc : upb_bytesrc Unit Unit :=
  { getstr := fun _ _ => SrcRes.ok [] ()
    read := fun _ _ => SrcRes.ok [] ()
    eof := fun _ => false
    status := fun _ => () }

theorem getfullstr_loop_zeroSrc :
    ∀ fuel str tr, getfullstr_loop zeroSrc fuel str () tr = none := by
  intro fuel
  induction fuel with
  | zero =>
    intro str tr
    rfl
  | succ fuel ih =>
    intro str tr
    simp only [getfullstr_loop, zeroSrc]
    exact ih (str ++ []) (tr ++ [SrcCall.readC true])

/-- Claim C8 (the code diverges from it): on a zero-progress source — permitted by the
byte-source contract, since read may legitimately return 0 while eof is unset — the
read loop of upb_bytesrc_getfullstr never terminates: for EVERY iteration bound the
embedded loop fails to finish, although the stream length is 0. -/
theorem getfullstr_no_progress_divergence :
    ∀ fuel : Nat, upb_bytesrc_getfullstr zeroSrc fuel () = none := by
  intro fuel
  unfold upb_bytesrc_getfullstr
  exact getfullstr_loop_zeroSrc fuel [] [SrcCall.getstrC true]

/-- The error codes upb_refcounted_freeze can report (spec section 7). -/
inductive upb_errorcode where
  | UPB_OK
  | UPB_ERROR_MAXDEPTH
  | UPB_ERROR_TOOMANYOBJS
  | UPB_ERROR_OOM
deriving DecidableEq, Repr

/-- The refcounted-graph state, upb/refcounted.h: per object (a Nat id) its group
pointer (a counter-cell id), next link, individual_count and is_frozen flag; counter
cells hold the shared group counts; next_counter supplies fresh cell ids. -/
structure upb_refcounted_graph where
  group : Nat → Nat
  counters : Nat → Nat
  next : Nat → Nat
  individual_count : Nat → Nat
  is_frozen : Nat → Bool
  next_counter : Nat

/-- Thread an Option-returning visit function over a list of start objects,
propagating the visited set and failing as soon as the function fails. -/
def dfsFold (f : Nat → List Nat → Option (List Nat)) :
    List Nat → List Nat → Option (List Nat)
  | [], visited => some visited
  | x :: xs, visited =>
    match f x visited with
    | none => none
    | some v1 => dfsFold f xs v1

/-- Modelled from the spec: the freeze traversal of upb_refcounted_freeze (spec
section 4.4 steps 1-2; the implementation is not part of src/) — depth-first search
over the ref2 edges enumerated by each object's visit callback, returning the visited
objects, or none when the DFS depth exceeds the caller-supplied bound. -/
def freezeDfs (edges : Nat → List Nat) : Nat → Nat → List Nat → Option (List Nat)
  | 0, _, _ => none
  | depth + 1, x, visited =>
    if x ∈ visited then some visited
    else dfsFold (freezeDfs edges depth) (edges x) (x :: visited)

/-- DFS from each root in turn, threading the visited set. -/
def freezeDfsList (edges : Nat → List Nat) (depth : Nat) :
    List Nat → List Nat → Option (List Nat) :=
  dfsFold (freezeDfs edges depth)

/-- One step of the reachability closure: add every successor of the accumulated set. -/
def reachStep (edges : Nat → List Nat) (acc : List Nat) : List Nat :=
  acc.foldl (fun a x => (edges x).foldl (fun b y => if y ∈ b then b else b ++ [y]) a) acc

/-- Fuel-bounded reachability closure. -/
def reachClosure (edges : Nat → List Nat) : Nat → List Nat → List Nat
  | 0, acc => acc
  | fuel + 1, acc => reachClosure edges fuel (reachStep edges acc)

/-- Does x reach y via edges within fuel closure rounds? -/
def reaches (edges : Nat → List Nat) (fuel : Nat) (x y : Nat) : Bool :=
  decide (y ∈ reachClosure edges fuel [x])

/-- The canonical representative of x's SCC among the reachable objects: the first
reachable object mutually reachable with x. -/
def freezeSccRep (edges : Nat → List Nat) (reach : List Nat) (x : Nat) : Nat :=
  match reach.filter (fun y =>
      reaches edges (reach.length + 1) x y && reaches edges (reach.length + 1) y x) with
  | [] => x
  | y :: _ => y

/-- The list of SCC representatives, one per SCC (spec section 4.4 step 4: one fresh
counter is allocated per SCC). -/
def freezeReps (edges : Nat → List Nat) (reach : List Nat) : List Nat :=
  (reach.map (freezeSccRep edges reach)).dedup

/-- Modelled from the spec: the successful outcome of freeze (spec section 4.4 step
4): every reachable object's group pointer is rewritten to its SCC's freshly
allocated counter, that counter holds the sum of individual_counts over the SCC, the
next links cycle over the SCC members, and is_frozen is set. -/
def freezeSuccess (g : upb_refcounted_graph) (edges : Nat → List Nat)
    (reach : List Nat) : upb_refcounted_graph :=
  let reps := freezeReps edges reach
  let sccMembers : Nat → List Nat := fun x =>
    reach.filter (fun y => freezeSccRep edges reach y = freezeSccRep edges reach x)
  { group := fun x =>
      if x ∈ reach then g.next_counter + reps.indexOf (freezeSccRep edges reach x)
      else g.group x
    counters := fun c =>
      if g.next_counter ≤ c ∧ c < g.next_counter + reps.length then
        ((reach.filter (fun y =>
          reps.indexOf (freezeSccRep edges reach y) = c - g.next_counter)).map
            g.individual_count).sum
      else g.counters c
    next := fun x =>
      if x ∈ reach then
        (sccMembers x).getD (((sccMembers x).indexOf x + 1) % (sccMembers x).length) x
      else g.next x
    individual_count := g.individual_count
    is_frozen := fun x => if x ∈ reach then true else g.is_frozen x
    next_counter := g.next_counter + reps.length }

/-- Modelled from the spec: upb_refcounted_freeze (upb/refcounted.h declares it; the
implementation is not part of src/).  Per spec section 4.4: DFS from the roots via
the visit edges aborts with MAXDEPTH beyond the depth bound; more than 2^31 reachable
objects aborts with TOOMANYOBJS; one fresh counter is allocated per SCC, the oracle
alloc saying which allocations succeed — any failure aborts with OOM; per step 6,
every abort returns false with the status code and the graph unchanged. -/
def upb_refcounted_freeze (g : upb_refcounted_graph) (edges : Nat → List Nat)
    (roots : List Nat) (alloc : Nat → Bool) (maxdepth : Nat) :
    Bool × upb_errorcode × upb_refcounted_graph :=
  match freezeDfsList edges maxdepth roots [] with
  | none => (false, upb_errorcode.UPB_ERROR_MAXDEPTH, g)
  | some reach =>
    if 2 ^ 31 < reach.length then (false, upb_errorcode.UPB_ERROR_TOOMANYOBJS, g)
    else if (List.range (freezeReps edges reach).length).all alloc then
      (true, upb_errorcode.UPB_OK, freezeSuccess g edges reach)
    else (false, upb_errorcode.UPB_ERROR_OOM, g)

/-- Claim C9: upb_refcounted_freeze is transactional — whenever it returns false
(allocation failure, more than 2^31 reachable mutable objects, or DFS depth beyond
the caller-supplied maxdepth), the status is populated with a non-OK code and every
object's observable state (group pointer, counter values, next links,
individual_count, is_frozen) is exactly the original graph. -/
theorem upb_refcounted_freeze_transactional (g : upb_refcounted_graph)
    (edges : Nat → List Nat) (roots : List Nat) (alloc : Nat → Bool) (maxdepth : Nat)
    (st : upb_errorcode) (g' : upb_refcounted_graph)
    (hfail : upb_refcounted_freeze g edges roots alloc maxdepth = (false, st, g')) :
    g' = g ∧ st ≠ upb_errorcode.UPB_OK := by
  unfold upb_refcounted_freeze at hfail
  split at hfail
  · simp only [Prod.mk.injEq] at hfail
    obtain ⟨-, hst, hg⟩ := hfail
    refine ⟨hg.symm, ?_⟩
    rw [← hst]
    decide
  · split at hfail
    · simp only [Prod.mk.injEq] at hfail
      obtain ⟨-, hst, hg⟩ := hfail
      refine ⟨hg.symm, ?_⟩
      rw [← hst]
      decide
    · split at hfail
      · simp at hfail
      · simp only [Prod.mk.injEq] at hfail
        obtain ⟨-, hst, hg⟩ := hfail
        refine ⟨hg.symm, ?_⟩
        rw [← hst]
        decide

/-- A one-object mutable graph used as the concrete freeze-failure input. -/
def exampleGraph : upb_refcounted_graph :=
  { group := fun _ => 0
    counters := fun _ => 1
    next := fun x => x
    individual_count := fun _ => 1
    is_frozen := fun _ => false
    next_counter := 1 }

theorem upb_refcounted_freeze_transactional_witness :
    upb_refcounted_freeze exampleGraph (fun _ => []) [0] (fun _ => true) 0
        = (false, upb_errorcode.UPB_ERROR_MAXDEPTH, exampleGraph) ∧
    (exampleGraph = exampleGraph ∧
      upb_errorcode.UPB_ERROR_MAXDEPTH ≠ upb_errorcode.UPB_OK) :=
  ⟨rfl, upb_refcounted_freeze_transactional exampleGraph (fun _ => []) [0]
    (fun _ => true) 0 upb_errorcode.UPB_ERROR_MAXDEPTH exampleGraph rfl⟩

/-- A group-counter cell: either the single global static_refcount shared by all
compiled-in refcounted objects (extern uint32_t static_refcount), or a dynamically
allocated counter cell. -/
inductive CounterRef where
  | static_refcount
  | dynamic (id : Nat)
deriving DecidableEq, Repr

/-- struct upb_refcounted (upb/refcounted.h, non-debug layout): group pointer, next
link, vtbl pointer, individual_count, is_frozen.  V is the type behind the vtbl
pointer; object pointers are Nat ids. -/
structure upb_refcounted (V : Type) where
  group : CounterRef
  next : Option Nat
  vtbl : Option V
  individual_count : Nat
  is_frozen : Bool

/-- UPB_REFCOUNT_INIT, non-debug variant: the static initializer
{&static_refcount, NULL, NULL, 0, true}, read off against the field order of
upb_refcounted: group = &static_refcount, next = NULL, vtbl = NULL,
individual_count = 0, is_frozen = true. -/
def UPB_REFCOUNT_INIT (V : Type) : upb_refcounted V :=
  { group := CounterRef.static_refcount
    next := none
    vtbl := none
    individual_count := 0
    is_frozen := true }

/-- Modelled from the spec: upb_refcounted_init (declared in upb/refcounted.h, the
implementation is not part of src/) — a dynamically initialized refcounted is born
mutable with a freshly allocated group counter equal to 1, a single-element group
list (the next link closing the cycle on the object itself), and one ref owned by the
initializing caller (individual_count 1).  selfId is the object's own id, freshId the
id of the newly allocated counter; the second component is the value stored in that
fresh counter. -/
def upb_refcounted_init (V : Type) (selfId freshId : Nat) (v : V) :
    upb_refcounted V × Nat :=
  ({ group := CounterRef.dynamic freshId
     next := some selfId
     vtbl := some v
     individual_count := 1
     is_frozen := false }, 1)

/-- Claim C10: an object initialized with the static UPB_REFCOUNT_INIT macro is born
frozen with individual_count 0 and its group pointer aimed at the single shared
global static_refcount — never at a freshly allocated counter — unlike the spec's
lifecycle for dynamically initialized objects, which are born mutable
(is_frozen = false) with individual_count 1 and a fresh dynamic counter holding 1;
being born frozen, such a compiled-in object never passes through the mutable state. -/
theorem static_refcount_init_born_frozen :
    (UPB_REFCOUNT_INIT Unit).is_frozen = true ∧
    (UPB_REFCOUNT_INIT Unit).individual_count = 0 ∧
    (UPB_REFCOUNT_INIT Unit).group = CounterRef.static_refcount ∧
    (∀ id : Nat, (UPB_REFCOUNT_INIT Unit).group ≠ CounterRef.dynamic id) ∧
    (upb_refcounted_init Unit 0 0 ()).1.is_frozen = false ∧
    (upb_refcounted_init Unit 0 0 ()).1.individual_count = 1 ∧
    (upb_refcounted_init Unit 0 0 ()).1.group = CounterRef.dynamic 0 ∧
    (upb_refcounted_init Unit 0 0 ()).2 = 1 := by
  refine ⟨rfl, rfl, rfl, ?_, rfl, rfl, rfl, rfl⟩
  intro id
  simp [UPB_REFCOUNT_INIT]
